import Mathlib

/- Shallow embedding of the codebase indexer/search tool
   (src/tools/codebase_rag.py). Python strings are modelled as `List Char`
   (sequences of code points); `str.lower`, the regex classes `\s` and `\w`
   and `str.split` are modelled on the ASCII range. -/

/-- Python `str.lower` on one character (ASCII range), i.e. `Char.toLower`. -/
def lowerChar (c : Char) : Char := Char.toLower c

/-- Python `str.lower` over a whole string. -/
def lowerL (s : List Char) : List Char := s.map lowerChar

/-- Characters of the regex class `\s` (Python: space, tab, newline, return,
vertical tab, form feed). -/
def isReSpace (c : Char) : Bool :=
  c.isWhitespace || c.toNat == 11 || c.toNat == 12

/-- Characters of the regex class `\w` (letters, digits, underscore). -/
def isWordChar (c : Char) : Bool := c.isAlphanum || c == '_'

/-- Python `str.startswith`: does `hay` start with `lit`? -/
def leadsWith : List Char → List Char → Bool
  | _, [] => true
  | [], _ :: _ => false
  | h :: hs, n :: ns => h == n && leadsWith hs ns

/-- Python substring containment `needle in hay` (contiguous occurrence). -/
def occursIn (needle : List Char) : List Char → Bool
  | [] => needle.isEmpty
  | c :: t => leadsWith (c :: t) needle || occursIn needle t

/-- Consume the literal `lit` from the front of `s`, returning the rest. -/
def dropLit : List Char → List Char → Option (List Char)
  | [], s => some s
  | _ :: _, [] => none
  | l :: ls, c :: cs => if l == c then dropLit ls cs else none

/-- The regex fragment `\s*`: drop the maximal whitespace run. -/
def dropWs (s : List Char) : List Char := s.dropWhile isReSpace

/-- Python `str.strip()`: strip whitespace from both ends. -/
def stripWs (s : List Char) : List Char :=
  ((s.dropWhile isReSpace).reverse.dropWhile isReSpace).reverse

/-- Python `str.strip("//")`: strip `/` characters from both ends. -/
def stripSlash (s : List Char) : List Char :=
  ((s.dropWhile (fun c => c == '/')).reverse.dropWhile (fun c => c == '/')).reverse

/-- Python `str.split()` (fuelled): split on whitespace runs, dropping empties. -/
def splitWsF : Nat → List Char → List (List Char)
  | 0, _ => []
  | _ + 1, [] => []
  | fuel + 1, c :: cs =>
    if isReSpace c then splitWsF fuel cs
    else (c :: cs.takeWhile (fun d => !isReSpace d)) ::
      splitWsF fuel (cs.dropWhile (fun d => !isReSpace d))

/-- Python `str.split()`. -/
def splitWs (s : List Char) : List (List Char) := splitWsF s.length s

/-- `re.findall` of the pattern `\b\w+\b` (fuelled): the maximal word-character
runs of a string. -/
def wordGroupsF : Nat → List Char → List (List Char)
  | 0, _ => []
  | _ + 1, [] => []
  | fuel + 1, c :: cs =>
    if isWordChar c then
      (c :: cs.takeWhile isWordChar) :: wordGroupsF fuel (cs.dropWhile isWordChar)
    else wordGroupsF fuel cs

/-- `re.findall` of the pattern `\b\w+\b`. -/
def wordGroups (s : List Char) : List (List Char) := wordGroupsF s.length s

/-- Python `str.split(sep)` for a one-character separator (fuelled): keeps
empty pieces, as Python does. -/
def splitOnCharF (sep : Char) : Nat → List Char → List (List Char)
  | 0, s => [s]
  | fuel + 1, s =>
    let piece := s.takeWhile (fun c => !(c == sep))
    match s.dropWhile (fun c => !(c == sep)) with
    | [] => [piece]
    | _ :: rest => piece :: splitOnCharF sep fuel rest

/-- Python `str.split(sep)` for a one-character separator. -/
def splitOnChar (sep : Char) (s : List Char) : List (List Char) :=
  splitOnCharF sep s.length s

/-- Python `str(n)` for a natural number. -/
def natChars (n : Nat) : List Char := (Nat.repr n).data

/-- The `CodeEntity` dataclass. The embedding vector's payload is opaque to
every claim, so it is modelled as a byte list. -/
structure CodeEntity where
  entity_id : List Char
  entity_type : List Char
  name : List Char
  file_path : List Char
  line_number : Nat
  content : List Char
  summary : List Char
  signature : List Char
  parent_entity : Option (List Char) := none
  embedding : Option (List Nat) := none
deriving DecidableEq

/-- Match the regex `package\s+(\w+)` at the head of `s`, returning the
captured word. Greedy matching equals maximal munch here because each starred
run is followed by a character class disjoint from it. -/
def pkgMatchAt (s : List Char) : Option (List Char) :=
  match dropLit ("package".data) s with
  | none => none
  | some s1 =>
    if (s1.takeWhile isReSpace).isEmpty then none
    else
      let w := (s1.dropWhile isReSpace).takeWhile isWordChar
      if w.isEmpty then none else some w

/-- `re.search` for the package pattern: first position where it matches. -/
def reSearchPkg : Nat → List Char → Option (List Char)
  | 0, _ => none
  | fuel + 1, s =>
    match pkgMatchAt s with
    | some w => some w
    | none =>
      match s with
      | [] => none
      | _ :: t => reSearchPkg fuel t

/-- `GoCodeParser._extract_package`. -/
def extractPackage (content : List Char) : List Char :=
  (reSearchPkg (content.length + 1) content).getD ("unknown".data)

/-- The loop of `_extract_file_summary` over the first 20 lines: collect
stripped `//` comment lines, stop at the first other non-empty non-package
line. -/
def summaryLines : Nat → List (List Char) → List (List Char)
  | 0, _ => []
  | _ + 1, [] => []
  | k + 1, line :: rest =>
    if leadsWith (stripWs line) ("//".data) then
      stripWs (stripSlash line) :: summaryLines k rest
    else if !(stripWs line).isEmpty && !leadsWith (stripWs line) ("package".data) then
      []
    else summaryLines k rest

/-- `GoCodeParser._extract_file_summary`. -/
def extractFileSummary (content : List Char) : List Char :=
  let ls := summaryLines 20 (splitOnChar '\n' content)
  if ls.isEmpty then ("Go package".data)
  else (List.intercalate (" ".data) ls).take 200

/-- The regex fragment `\([^)]*\)`: consume a parenthesized group (the class
`[^)]*` cannot cross the closing parenthesis, so this is deterministic). -/
def parenGroup : List Char → Option (List Char)
  | '(' :: rest =>
    match rest.dropWhile (fun c => !(c == ')')) with
    | [] => none
    | _ :: after => some after
  | _ => none

/-- Deterministic matcher for the function pattern
`func\s*(?:\([^)]*\)\s*)?(\w+)\s*\([^)]*\)\s*(?:\([^)]*\))?\s*\x7b`
at the head of `s`, returning the captured name and the rest after the match.
On this pattern greedy matching with backtracking coincides with maximal
munch, because every starred run and optional group is followed by a
character it cannot begin with. -/
def funcMatchAt (s : List Char) : Option (List Char × List Char) :=
  match dropLit ("func".data) s with
  | none => none
  | some s1 =>
    let s2 := dropWs s1
    let s3opt :=
      match s2 with
      | '(' :: _ => (parenGroup s2).map dropWs
      | _ => some s2
    match s3opt with
    | none => none
    | some s3 =>
      let funcName := s3.takeWhile isWordChar
      if funcName.isEmpty then none
      else
        let s4 := dropWs (s3.dropWhile isWordChar)
        match parenGroup s4 with
        | none => none
        | some s5 =>
          let s6 := dropWs s5
          let s7opt :=
            match s6 with
            | '(' :: _ => (parenGroup s6).map dropWs
            | _ => some s6
          match s7opt with
          | none => none
          | some s7 =>
            match s7 with
            | '{' :: rest => some (funcName, rest)
            | _ => none

/-- Deterministic matcher for the type patterns `type\s+(\w+)\s+struct\s*\x7b`
and `type\s+(\w+)\s+interface\s*\x7b` (`kw` is the keyword), at the head of
`s`. -/
def typeMatchAt (kw : List Char) (s : List Char) : Option (List Char × List Char) :=
  match dropLit ("type".data) s with
  | none => none
  | some s1 =>
    if (s1.takeWhile isReSpace).isEmpty then none
    else
      let s2 := dropWs s1
      let typeName := s2.takeWhile isWordChar
      if typeName.isEmpty then none
      else
        let s3 := s2.dropWhile isWordChar
        if (s3.takeWhile isReSpace).isEmpty then none
        else
          match dropLit kw (dropWs s3) with
          | none => none
          | some s4 =>
            match dropWs s4 with
            | '{' :: rest => some (typeName, rest)
            | _ => none

/-- `re.finditer` (fuelled): scan positions left to right, yielding the
non-overlapping matches of `matcher` as (start, end, capture) and resuming
each scan at the end of the previous match. -/
def reFindIterF (matcher : List Char → Option (List Char × List Char))
    (content : List Char) : Nat → Nat → List (Nat × Nat × List Char)
  | 0, _ => []
  | fuel + 1, pos =>
    if pos < content.length then
      match matcher (content.drop pos) with
      | some (cap, rest) =>
        let len := content.length - pos - rest.length
        (pos, pos + len, cap) :: reFindIterF matcher content fuel (pos + max len 1)
      | none => reFindIterF matcher content fuel (pos + 1)
    else []

/-- `re.finditer` over a whole string. -/
def findMatches (matcher : List Char → Option (List Char × List Char))
    (content : List Char) : List (Nat × Nat × List Char) :=
  reFindIterF matcher content (content.length + 1) 0

/-- Python `str.find(c, i0)`: index of the first occurrence of `c` at
position ≥ `i0`, if any. -/
def findCharFrom (content : List Char) (c : Char) (i0 : Nat) : Option Nat :=
  match (content.drop i0).findIdx? (fun d => d == c) with
  | none => none
  | some j => some (i0 + j)

/-- The brace-depth loop of `_extract_code_block` (fuelled): starting at
`pos` with nesting `depth`, return the position after the loop exits. -/
def braceScanF (content : List Char) : Nat → Nat → Nat → Nat
  | 0, pos, _ => pos
  | fuel + 1, pos, depth =>
    if pos < content.length && depth > 0 then
      let c := content.getD pos ' '
      braceScanF content fuel (pos + 1)
        (if c == '{' then depth + 1 else if c == '}' then depth - 1 else depth)
    else pos

/-- `GoCodeParser._extract_code_block`: `start`/`endP` are the match bounds.
Searches for a brace from the match END (which is already past the match's
own opening brace), takes the text before it (stripped) as the signature,
then scans braces at depth 1 and slices the body, capping the slice at 500. -/
def extractCodeBlock (content : List Char) (start endP : Nat) : List Char × List Char :=
  match findCharFrom content '{' endP with
  | none => ((content.drop start).take (endP - start), [])
  | some bracePos =>
    let signature := stripWs ((content.drop start).take (bracePos - start))
    let pos := braceScanF content content.length (bracePos + 1) 1
    let body := (content.drop bracePos).take (min pos (bracePos + 500) - bracePos)
    (signature, body)

/-- `GoCodeParser._extract_functions`. -/
def extractFunctions (content filePath parentId : List Char) : List CodeEntity :=
  (findMatches funcMatchAt content).filterMap (fun m =>
    let lineNumber := (content.take m.1).count '\n' + 1
    let sb := extractCodeBlock content m.1 m.2.1
    if leadsWith m.2.2 ("Test".data) then none
    else some {
      entity_id := ("func:".data) ++ filePath ++ [':'] ++ m.2.2 ++ [':'] ++ natChars lineNumber
      entity_type := ("function".data)
      name := m.2.2
      file_path := filePath
      line_number := lineNumber
      content := sb.2.take 300
      summary := ("Function ".data) ++ m.2.2
      signature := sb.1
      parent_entity := some parentId })

/-- One pass of `_extract_types` for a given keyword and its capitalized
label. -/
def typePass (typeName label content filePath parentId : List Char) : List CodeEntity :=
  (findMatches (typeMatchAt typeName) content).map (fun m =>
    let lineNumber := (content.take m.1).count '\n' + 1
    let sb := extractCodeBlock content m.1 m.2.1
    { entity_id := typeName ++ [':'] ++ filePath ++ [':'] ++ m.2.2 ++ [':'] ++ natChars lineNumber
      entity_type := typeName
      name := m.2.2
      file_path := filePath
      line_number := lineNumber
      content := sb.2.take 300
      summary := label ++ [' '] ++ m.2.2
      signature := sb.1
      parent_entity := some parentId })

/-- `GoCodeParser._extract_types`: the struct pass, then the interface pass. -/
def extractTypes (content filePath parentId : List Char) : List CodeEntity :=
  typePass ("struct".data) ("Struct".data) content filePath parentId ++
    typePass ("interface".data) ("Interface".data) content filePath parentId

/-- The file-level entity built at the top of `_parse_file`. -/
def fileEntityOf (relPath fileName content : List Char) : CodeEntity :=
  { entity_id := ("file:".data) ++ relPath
    entity_type := ("file".data)
    name := fileName
    file_path := relPath
    line_number := 1
    content := content.take 500
    summary := extractFileSummary content
    signature := ("package ".data) ++ extractPackage content
    parent_entity := none }

/-- `GoCodeParser._parse_file` (pure part: the file is already read into
`content`, `relPath` is its root-relative path, `fileName` its base name). -/
def parseFile (relPath fileName content : List Char) : List CodeEntity :=
  fileEntityOf relPath fileName content ::
    (extractFunctions content relPath (fileEntityOf relPath fileName content).entity_id ++
      extractTypes content relPath (fileEntityOf relPath fileName content).entity_id)

/-- A source file handed to the parser: root-relative path, base name,
content. -/
structure SrcFile where
  relPath : List Char
  fileName : List Char
  content : List Char

/-- `GoCodeParser.parse_all`: skip paths containing `_test.go`, parse the
rest in discovery order, accumulating entities. -/
def parseAll (files : List SrcFile) : List CodeEntity :=
  (files.filter (fun f => !occursIn ("_test.go".data) f.relPath)).foldl
    (fun acc f => acc ++ parseFile f.relPath f.fileName f.content) []

/-- The keyword derivation of `CodebaseRAG._create_keywords` from the four
fields it reads: word tokens of the name, the entity type, the first five
word tokens of the summary, and the `/`-separated path components, joined
with spaces and lower-cased. -/
def createKeywordsParts (entName entType entSummary entPath : List Char) : List Char :=
  lowerL (List.intercalate (" ".data)
    (wordGroups entName ++ [entType] ++ (wordGroups entSummary).take 5 ++
      splitOnChar '/' entPath))

/-- `CodebaseRAG._create_keywords`. -/
def createKeywords (e : CodeEntity) : List Char :=
  createKeywordsParts e.name e.entity_type e.summary e.file_path

/-- The record built per returned row by `CodebaseRAG.search`: exactly the
eight dict keys the source writes (`parent_entity` and `embedding` are not
among them). -/
structure ResultRec where
  entity_id : List Char
  entity_type : List Char
  name : List Char
  file_path : List Char
  line_number : Nat
  content : List Char
  summary : List Char
  signature : List Char
deriving DecidableEq

/-- Build the result record from an `entities` row. -/
def toResultRec (e : CodeEntity) : ResultRec :=
  { entity_id := e.entity_id, entity_type := e.entity_type, name := e.name,
    file_path := e.file_path, line_number := e.line_number, content := e.content,
    summary := e.summary, signature := e.signature }

/-- Number of query tokens occurring as substrings of the keyword text. -/
def countMatches (keywords : List (List Char)) (keywordsText : List Char) : Nat :=
  keywords.countP (fun kw => occursIn kw keywordsText)

/-- The `search_index` table derived from the `entities` rows:
`index_entities` writes both tables from the same entity in one step, so the
rows pair each entity id with its derived keyword string, in row order. -/
def searchIndexOf (store : List CodeEntity) : List (List Char × List Char) :=
  store.map (fun e => (e.entity_id, createKeywords e))

/-- One iteration of the matching loop of `CodebaseRAG.search`: point-select
the row's keyword string by id, lower-case it, count token hits, and keep the
row when the count is positive, as an (entity_id, match_count) pair. -/
def matchRow (store : List CodeEntity) (keywords : List (List Char))
    (row : List Char × List Char) : Option (List Char × Nat) :=
  match (searchIndexOf store).find? (fun r => r.1 == row.1) with
  | some r =>
    if 0 < countMatches keywords (lowerL r.2) then
      some (row.1, countMatches keywords (lowerL r.2))
    else none
  | none => none

/-- The matching loop of `CodebaseRAG.search` over every `search_index` row. -/
def matchingIds (store : List CodeEntity) (keywords : List (List Char)) :
    List (List Char × Nat) :=
  (searchIndexOf store).filterMap (matchRow store keywords)

/-- Stable insertion into a list sorted by descending count: the new element
goes after strictly greater counts and before equal ones. -/
def insDesc (a : List Char × Nat) : List (List Char × Nat) → List (List Char × Nat)
  | [] => [a]
  | y :: ys => if a.2 < y.2 then y :: insDesc a ys else a :: y :: ys

/-- Python `list.sort(key=match_count, reverse=True)`: a stable descending
sort (equal counts keep their original relative order). -/
def sortDesc : List (List Char × Nat) → List (List Char × Nat)
  | [] => []
  | a :: l => insDesc a (sortDesc l)

/-- The final loop of `search`: re-fetch the matched row from `entities` by
id and build the result record; a missing row contributes nothing. -/
def fetchRec (store : List CodeEntity) (i : List Char) : Option ResultRec :=
  match store.find? (fun e => e.entity_id == i) with
  | some e => some (toResultRec e)
  | none => none

/-- `CodebaseRAG.search` after query tokenization: match, sort by relevance,
truncate to `limit`, fetch full rows. -/
def searchFrom (store : List CodeEntity) (keywords : List (List Char)) (limit : Nat) :
    List ResultRec :=
  ((sortDesc (matchingIds store keywords)).take limit).filterMap (fun p => fetchRec store p.1)

/-- `CodebaseRAG.search`. The `entity_types` filter is assembled into a SQL
string by the source, but that statement is never executed, so the filter has
no effect on the returned rows; accordingly it is unused here as well. -/
def search (store : List CodeEntity) (query : List Char) (limit : Nat)
    (entityTypes : Option (List (List Char))) : List ResultRec :=
  searchFrom store (splitWs (lowerL query)) limit

/-- The query parsing of `main`'s interactive loop: when the query contains a
colon it is split at the first one; a recognized first part selects an
entity-type filter, and the part after the colon always becomes the search
text. -/
def parseQuery (query : List Char) : Option (List (List Char)) × List Char :=
  if query.contains ':' then
    let p := query.takeWhile (fun c => !(c == ':'))
    let rest := (query.dropWhile (fun c => !(c == ':'))).tail
    if p = ("func".data) then (some [("function".data)], rest)
    else if p = ("struct".data) then (some [("struct".data)], rest)
    else if p = ("file".data) then (some [("file".data)], rest)
    else (none, rest)
  else (none, query)

/- Helper lemmas. -/

/-- Lower-casing a character is idempotent. -/
theorem lowerChar_idem (c : Char) : lowerChar (lowerChar c) = lowerChar c := by
  unfold lowerChar Char.toLower
  by_cases h : c.toNat ≥ 65 ∧ c.toNat ≤ 90
  · rw [if_pos h]
    have hv : (c.toNat + 32).isValidChar := Or.inl (by omega)
    have ht : (Char.ofNat (c.toNat + 32)).toNat = c.toNat + 32 := by
      rw [Char.ofNat, dif_pos hv]; rfl
    rw [if_neg (by omega)]
  · rw [if_neg h, if_neg h]

/-- Lower-casing a string is idempotent. -/
theorem lowerL_idem (s : List Char) : lowerL (lowerL s) = lowerL s := by
  unfold lowerL
  rw [List.map_map]
  exact List.map_congr_left (fun c _ => lowerChar_idem c)

/-- Accumulating appends from the left is concatenation of the pieces. -/
theorem foldl_append_eq_flatMap {α β : Type} (g : α → List β) :
    ∀ (l : List α) (init : List β),
      l.foldl (fun acc x => acc ++ g x) init = init ++ l.flatMap g
  | [], init => by simp
  | a :: t, init => by
    simp only [List.foldl_cons, List.flatMap_cons]
    rw [foldl_append_eq_flatMap g t (init ++ g a), List.append_assoc]

/-- `parse_all` is the concatenation of the per-file entity lists on the
non-test files. -/
theorem parseAll_eq_flatMap (files : List SrcFile) :
    parseAll files =
      (files.filter (fun f => !occursIn ("_test.go".data) f.relPath)).flatMap
        (fun f => parseFile f.relPath f.fileName f.content) := by
  unfold parseAll
  rw [foldl_append_eq_flatMap]
  simp

/-- Every entity produced by `_extract_functions` is a function entity with
the given parent and a content capped at 300 characters. -/
theorem mem_extractFunctions {content filePath parentId : List Char} {e : CodeEntity}
    (he : e ∈ extractFunctions content filePath parentId) :
    e.entity_type = ("function".data) ∧ e.parent_entity = some parentId ∧
      e.content.length ≤ 300 := by
  unfold extractFunctions at he
  rcases List.mem_filterMap.mp he with ⟨m, _hm, hsome⟩
  by_cases ht : leadsWith m.2.2 ("Test".data)
  · rw [if_pos ht] at hsome
    exact absurd hsome (by simp)
  · rw [if_neg ht] at hsome
    injection hsome with h
    subst h
    exact ⟨rfl, rfl, List.length_take_le _ _⟩

/-- Every entity produced by a `typePass` has that pass's type, the given
parent, and a content capped at 300 characters. -/
theorem mem_typePass {typeName label content filePath parentId : List Char} {e : CodeEntity}
    (he : e ∈ typePass typeName label content filePath parentId) :
    e.entity_type = typeName ∧ e.parent_entity = some parentId ∧
      e.content.length ≤ 300 := by
  unfold typePass at he
  rcases List.mem_map.mp he with ⟨m, _hm, h⟩
  subst h
  exact ⟨rfl, rfl, List.length_take_le _ _⟩

/-- Shape of every entity produced by `_parse_file`: either the file entity
(no parent, content capped at 500) or a declaration entity (function, struct
or interface, parented to the file entity's id, content capped at 300). -/
theorem mem_parseFile {relPath fileName content : List Char} {e : CodeEntity}
    (he : e ∈ parseFile relPath fileName content) :
    (e.entity_type = ("file".data) ∧ e.parent_entity = none ∧
        e.content.length ≤ 500) ∨
    ((e.entity_type = ("function".data) ∨ e.entity_type = ("struct".data) ∨
        e.entity_type = ("interface".data)) ∧
      e.parent_entity = some (("file:".data) ++ relPath) ∧
      e.content.length ≤ 300) := by
  unfold parseFile at he
  rcases List.mem_cons.mp he with rfl | hin
  · exact Or.inl ⟨rfl, rfl, List.length_take_le _ _⟩
  · rcases List.mem_append.mp hin with hf | hty
    · rcases mem_extractFunctions hf with ⟨h1, h2, h3⟩
      exact Or.inr ⟨Or.inl h1, h2, h3⟩
    · rcases List.mem_append.mp hty with hs | hi
      · rcases mem_typePass hs with ⟨h1, h2, h3⟩
        exact Or.inr ⟨Or.inr (Or.inl h1), h2, h3⟩
      · rcases mem_typePass hi with ⟨h1, h2, h3⟩
        exact Or.inr ⟨Or.inr (Or.inr h1), h2, h3⟩

/- Concrete inputs used by the evaluation theorems and witnesses. -/

/-- The spec's round-trip example source text. -/
def c3src : List Char :=
  "package main\nfunc Add(a, b int) int \x7b return a + b \x7d".data

/-- A minimal source with one no-return-type function declaration. -/
def c4src : List Char := "package main\nfunc F() \x7b \x7d".data

/-- A persisted struct entity whose keyword string contains `add`. -/
def adderStruct : CodeEntity :=
  { entity_id := "struct:s.go:Adder:1".data
    entity_type := "struct".data
    name := "Adder".data
    file_path := "s.go".data
    line_number := 1
    content := "x".data
    summary := "Struct Adder".data
    signature := "type Adder struct".data
    parent_entity := some ("file:s.go".data) }

/-- A persisted function entity whose keyword string contains `add`. -/
def entA : CodeEntity :=
  { entity_id := "e1".data
    entity_type := "function".data
    name := "Add".data
    file_path := "a.go".data
    line_number := 3
    content := "c".data
    summary := "Function Add".data
    signature := "func Add() \x7b".data
    parent_entity := some ("file:a.go".data) }

/-- The same row as `entA` except for `parent_entity` and `embedding`. -/
def entB : CodeEntity := { entA with parent_entity := none, embedding := some [1] }

/-- C1: the claim fails on the code. The interactive query `func:add` does
set the type filter ['function'], but `search` only assembles the filtering
SQL without ever executing it: the matching loop scans the whole
`search_index`, so a struct entity whose keywords contain `add` is returned
even though the filter is set. -/
theorem C1_filter_ignored :
    parseQuery ("func:add".data) = (some [("function".data)], ("add".data)) ∧
    (search [adderStruct] ("add".data) 10 (some [("function".data)])).map
      (fun r => r.entity_type) = [("struct".data)] := by decide

/-- C3: the claim fails on the code. Parsing the spec's example text
`package main\nfunc Add(a, b int) int \x7b return a + b \x7d` produces only
the file entity (with the claimed signature `package main`): the function
pattern requires the opening brace to follow the parameter list or a
parenthesized return list, so the bare return type `int` prevents any match
and no `Add` entity is produced. -/
theorem C3_no_function_entity :
    (parseFile ("main.go".data) ("main.go".data) c3src).map (fun e => e.entity_type) =
      [("file".data)] ∧
    (parseFile ("main.go".data) ("main.go".data) c3src).map (fun e => e.signature) =
      [("package main".data)] := by decide

/-- C4: the claim fails on the code. For `package main\nfunc F() \x7b \x7d`
the stored function entity's signature is `func F() \x7b`: it contains the
declaration's opening brace, because `_extract_code_block` searches for a
brace starting at the match end, which is already past the opening brace
matched by the pattern. -/
theorem C4_signature_has_brace :
    (parseFile ("m.go".data) ("m.go".data) c4src).map (fun e => e.signature) =
      [("package main".data), ("func F() \x7b".data)] ∧
    '{' ∈ ("func F() \x7b".data : List Char) := by decide

/-- C2 counterexample: the interactive query `foo:bar` with the unrecognized
prefix `foo` is not searched as the literal text `foo:bar`; the effective
query is `bar`. -/
theorem C2_counterexample :
    parseQuery ("foo:bar".data) = (none, ("bar".data)) ∧
    ("bar".data : List Char) ≠ ("foo:bar".data) := by decide

/-- C2 amended: for every interactive query containing a colon whose prefix
part is none of func, struct, file, no type filter is set, but the prefix IS
stripped: the effective query is the text after the first colon. -/
theorem C2_unknown_prefix_stripped (q : List Char) (hc : q.contains ':' = true)
    (h1 : q.takeWhile (fun c => !(c == ':')) ≠ ("func".data))
    (h2 : q.takeWhile (fun c => !(c == ':')) ≠ ("struct".data))
    (h3 : q.takeWhile (fun c => !(c == ':')) ≠ ("file".data)) :
    parseQuery q = (none, (q.dropWhile (fun c => !(c == ':'))).tail) := by
  unfold parseQuery
  rw [if_pos hc, if_neg h1, if_neg h2, if_neg h3]

/-- C2 witness: the amended statement evaluated at the query `foo:bar`. -/
theorem C2_unknown_prefix_stripped_witness :
    parseQuery ("foo:bar".data) = (none, ("bar".data)) :=
  C2_unknown_prefix_stripped ("foo:bar".data) (by decide) (by decide) (by decide) (by decide)

/-- C6: every entity produced by an indexing run respects the content caps —
at most 500 characters for a file entity, at most 300 for any declaration
entity — regardless of the size of the source input. -/
theorem C6_content_caps (files : List SrcFile) (e : CodeEntity)
    (he : e ∈ parseAll files) :
    (e.entity_type = ("file".data) → e.content.length ≤ 500) ∧
    (e.entity_type ≠ ("file".data) → e.content.length ≤ 300) := by
  rw [parseAll_eq_flatMap] at he
  rcases List.mem_flatMap.mp he with ⟨f, _hf, hef⟩
  rcases mem_parseFile hef with ⟨hty, _, hc⟩ | ⟨hty, _, hc⟩
  · exact ⟨fun _ => hc, fun hne => absurd hty hne⟩
  · constructor
    · intro hfile
      rcases hty with h | h | h <;> rw [h] at hfile <;> exact absurd hfile (by decide)
    · exact fun _ => hc

/-- C6 witness: the file entity of a concrete one-file run, its cap
discharged through the theorem. -/
theorem C6_content_caps_witness :
    (fileEntityOf ("m.go".data) ("m.go".data) c4src).content.length ≤ 500 :=
  (C6_content_caps [⟨("m.go".data), ("m.go".data), c4src⟩]
    (fileEntityOf ("m.go".data) ("m.go".data) c4src) (by decide)).1 (by decide)

/-- C9: after an indexing run, every file entity has a null parent, and every
non-file entity's parent is the id of a file entity produced in the same run
(the entity of the file it was extracted from). -/
theorem C9_parent_integrity (files : List SrcFile) (e : CodeEntity)
    (he : e ∈ parseAll files) :
    (e.entity_type = ("file".data) → e.parent_entity = none) ∧
    (e.entity_type ≠ ("file".data) →
      ∃ f, f ∈ parseAll files ∧ f.entity_type = ("file".data) ∧
        e.parent_entity = some f.entity_id) := by
  rw [parseAll_eq_flatMap] at he
  rcases List.mem_flatMap.mp he with ⟨s, hs, hes⟩
  rcases mem_parseFile hes with ⟨hty, hpar, _⟩ | ⟨hty, hpar, _⟩
  · exact ⟨fun _ => hpar, fun hne => absurd hty hne⟩
  · constructor
    · intro hfile
      rcases hty with h | h | h <;> rw [h] at hfile <;> exact absurd hfile (by decide)
    · intro _
      refine ⟨fileEntityOf s.relPath s.fileName s.content, ?_, rfl, ?_⟩
      · rw [parseAll_eq_flatMap]
        refine List.mem_flatMap.mpr ⟨s, hs, ?_⟩
        unfold parseFile
        exact List.mem_cons_self _ _
      · rw [hpar]
        rfl

/-- C9 witness: the function entity of a concrete one-file run has the file
entity of the same run as its parent. -/
theorem C9_parent_integrity_witness :
    ∃ f, f ∈ parseAll [⟨("m.go".data), ("m.go".data), c4src⟩] ∧
      f.entity_type = ("file".data) ∧
      ({ entity_id := "func:m.go:F:2".data, entity_type := "function".data,
         name := "F".data, file_path := "m.go".data, line_number := 2,
         content := [], summary := "Function F".data,
         signature := "func F() \x7b".data,
         parent_entity := some ("file:m.go".data) } : CodeEntity).parent_entity =
        some f.entity_id :=
  (C9_parent_integrity [⟨("m.go".data), ("m.go".data), c4src⟩] _ (by decide)).2 (by decide)

/-- C10: search is case-insensitive. Lower-casing the query does not change
the result, and neither does replacing the query by any case variant (any
string with the same lower-casing), because the only use `search` makes of
its query is to tokenize its lower-cased form. -/
theorem C10_case_insensitive (store : List CodeEntity) (q : List Char) (limit : Nat)
    (ts : Option (List (List Char))) :
    search store (lowerL q) limit ts = search store q limit ts ∧
    ∀ q', lowerL q' = lowerL q → search store q' limit ts = search store q limit ts := by
  constructor
  · unfold search
    rw [lowerL_idem]
  · intro q' h
    unfold search
    rw [h]

/-- C10 witness: the upper-case variant `ADD` of the query `add`, on a
one-entity store. -/
theorem C10_case_insensitive_witness :
    search [entA] ("ADD".data) 10 none = search [entA] ("add".data) 10 none :=
  (C10_case_insensitive [entA] ("add".data) 10 none).2 ("ADD".data) (by decide)

/-- C8: when no query token occurs as a substring of any stored entity's
keyword string — in particular when the query tokenizes to no tokens at all,
making the hypothesis vacuous — search returns the empty list (it is a total
function; no error is possible). -/
theorem C8_no_match_empty (store : List CodeEntity) (q : List Char) (limit : Nat)
    (ts : Option (List (List Char)))
    (h : ∀ e ∈ store, ∀ t ∈ splitWs (lowerL q),
      occursIn t (lowerL (createKeywords e)) = false) :
    search store q limit ts = [] := by
  have hm : matchingIds store (splitWs (lowerL q)) = [] := by
    apply List.filterMap_eq_nil_iff.mpr
    intro row hrow
    unfold matchRow
    cases hf : (searchIndexOf store).find? (fun r => r.1 == row.1) with
    | none => rfl
    | some r =>
      have hr : r ∈ searchIndexOf store := List.mem_of_find?_eq_some hf
      rcases List.mem_map.mp hr with ⟨e, he, hre⟩
      have hc : countMatches (splitWs (lowerL q)) (lowerL r.2) = 0 := by
        apply List.countP_eq_zero.mpr
        intro t ht
        rw [← hre]
        simp only [Bool.not_eq_true]
        exact h e he t ht
      show (if 0 < countMatches (splitWs (lowerL q)) (lowerL r.2) then
          some (row.1, countMatches (splitWs (lowerL q)) (lowerL r.2))
        else none) = none
      rw [hc]
      simp
  unfold search searchFrom
  rw [hm, show sortDesc [] = [] from rfl, List.take_nil, List.filterMap_nil]

/-- C8 witness: the query `zzznomatch` on a one-entity store. -/
theorem C8_no_match_empty_witness :
    search [entA] ("zzznomatch".data) 10 none = [] :=
  C8_no_match_empty [entA] ("zzznomatch".data) 10 none (by decide)

/-- C5 counterexample: two stores whose sole entity rows differ only in
`parent_entity` and `embedding` yield identical search results, so the
result records cannot carry those two persisted fields. -/
theorem C5_counterexample :
    search [entA] ("add".data) 10 none = search [entB] ("add".data) 10 none ∧
    entA ≠ entB := by decide

/-- C5 amended: every returned record carries the eight fields entity_id,
entity_type, name, file_path, line_number, content, summary and signature
exactly as persisted for a store entity with that id; `parent_entity` and
`embedding` are not part of the result record. -/
theorem C5_fields_as_persisted (store : List CodeEntity) (q : List Char) (limit : Nat)
    (ts : Option (List (List Char))) (r : ResultRec)
    (hr : r ∈ search store q limit ts) :
    ∃ e, e ∈ store ∧ r.entity_id = e.entity_id ∧ r.entity_type = e.entity_type ∧
      r.name = e.name ∧ r.file_path = e.file_path ∧ r.line_number = e.line_number ∧
      r.content = e.content ∧ r.summary = e.summary ∧ r.signature = e.signature := by
  unfold search searchFrom at hr
  rcases List.mem_filterMap.mp hr with ⟨p, _hp, hfetch⟩
  unfold fetchRec at hfetch
  split at hfetch
  case h_1 e hfind =>
    have he : e ∈ store := List.mem_of_find?_eq_some hfind
    injection hfetch with h
    subst h
    exact ⟨e, he, rfl, rfl, rfl, rfl, rfl, rfl, rfl, rfl⟩
  case h_2 => exact absurd hfetch (by simp)

/-- C5 witness: the amended statement evaluated on a one-entity store. -/
theorem C5_fields_as_persisted_witness :
    ∃ e, e ∈ [entA] ∧ (toResultRec entA).entity_id = e.entity_id ∧
      (toResultRec entA).entity_type = e.entity_type ∧
      (toResultRec entA).name = e.name ∧ (toResultRec entA).file_path = e.file_path ∧
      (toResultRec entA).line_number = e.line_number ∧
      (toResultRec entA).content = e.content ∧ (toResultRec entA).summary = e.summary ∧
      (toResultRec entA).signature = e.signature :=
  C5_fields_as_persisted [entA] ("add".data) 10 none (toResultRec entA) (by decide)

/-- In a list whose keys are pairwise distinct, searching for a member's key
finds exactly that member (the PRIMARY KEY point-select). -/
theorem find_by_key {α : Type} (key : α → List Char) :
    ∀ (l : List α), (l.map key).Nodup → ∀ a ∈ l,
      l.find? (fun x => key x == key a) = some a
  | [], _, a, ha => absurd ha (List.not_mem_nil a)
  | b :: t, hN, a, ha => by
    have hN' := List.nodup_cons.mp hN
    rcases List.mem_cons.mp ha with rfl | hat
    · exact List.find?_cons_of_pos t (by simp)
    · by_cases hkb : key b = key a
      · exact absurd (hkb ▸ List.mem_map_of_mem key hat) hN'.1
      · rw [List.find?_cons_of_neg t (by simp [hkb])]
        exact find_by_key key t hN'.2 a hat

/-- With pairwise-distinct entity ids, a matching-loop iteration reduces to
scoring the row's own keyword string. -/
theorem matchRow_self (store : List CodeEntity) (kws : List (List Char))
    (hN : (store.map (fun e => e.entity_id)).Nodup) (row : List Char × List Char)
    (hrow : row ∈ searchIndexOf store) :
    matchRow store kws row =
      if 0 < countMatches kws (lowerL row.2) then
        some (row.1, countMatches kws (lowerL row.2))
      else none := by
  unfold matchRow
  have hkeys : ((searchIndexOf store).map Prod.fst).Nodup := by
    unfold searchIndexOf
    rw [List.map_map]
    exact hN
  rw [find_by_key Prod.fst (searchIndexOf store) hkeys row hrow]

/-- With pairwise-distinct entity ids, the matching loop keeps exactly the
positively scored entities, in store order. -/
theorem matchingIds_eq (store : List CodeEntity) (kws : List (List Char))
    (hN : (store.map (fun e => e.entity_id)).Nodup) :
    matchingIds store kws = store.filterMap (fun e =>
      if 0 < countMatches kws (lowerL (createKeywords e)) then
        some (e.entity_id, countMatches kws (lowerL (createKeywords e)))
      else none) := by
  unfold matchingIds
  rw [List.filterMap_congr (fun row hrow => matchRow_self store kws hN row hrow)]
  unfold searchIndexOf
  rw [List.filterMap_map]
  rfl

/-- Every matched pair is the id and score of a store entity, and fetching it
back returns that entity's result record. -/
theorem mem_matchingIds (store : List CodeEntity) (kws : List (List Char))
    (hN : (store.map (fun e => e.entity_id)).Nodup) (p : List Char × Nat)
    (hp : p ∈ matchingIds store kws) :
    ∃ e, e ∈ store ∧ p.1 = e.entity_id ∧
      p.2 = countMatches kws (lowerL (createKeywords e)) ∧
      fetchRec store p.1 = some (toResultRec e) := by
  rw [matchingIds_eq store kws hN] at hp
  rcases List.mem_filterMap.mp hp with ⟨e, he, hpe⟩
  by_cases h0 : 0 < countMatches kws (lowerL (createKeywords e))
  · rw [if_pos h0] at hpe
    injection hpe with hpe
    subst hpe
    refine ⟨e, he, rfl, rfl, ?_⟩
    show fetchRec store e.entity_id = some (toResultRec e)
    unfold fetchRec
    rw [find_by_key CodeEntity.entity_id store hN e he]
  · rw [if_neg h0] at hpe
    exact absurd hpe (by simp)

/-- Membership in a stable insertion. -/
theorem mem_insDesc (a x : List Char × Nat) :
    ∀ (l : List (List Char × Nat)), (x ∈ insDesc a l ↔ x = a ∨ x ∈ l)
  | [] => by simp [insDesc]
  | y :: ys => by
    unfold insDesc
    split
    · rw [List.mem_cons, mem_insDesc a x ys, List.mem_cons]
      tauto
    · simp only [List.mem_cons]

/-- Stable insertion preserves descending sortedness. -/
theorem insDesc_pairwise (a : List Char × Nat) :
    ∀ (l : List (List Char × Nat)), l.Pairwise (fun x y => y.2 ≤ x.2) →
      (insDesc a l).Pairwise (fun x y => y.2 ≤ x.2)
  | [], _ => by simp [insDesc]
  | y :: ys, h => by
    rcases List.pairwise_cons.mp h with ⟨hy, hys⟩
    unfold insDesc
    split
    case isTrue hlt =>
      refine List.pairwise_cons.mpr ⟨?_, insDesc_pairwise a ys hys⟩
      intro b hb
      rcases (mem_insDesc a b ys).mp hb with rfl | hbys
      · omega
      · exact hy b hbys
    case isFalse hge =>
      refine List.pairwise_cons.mpr ⟨?_, h⟩
      intro b hb
      rcases List.mem_cons.mp hb with rfl | hbys
      · omega
      · exact le_trans (hy b hbys) (by omega)

/-- The sort is sorted: counts are non-increasing along the result. -/
theorem sortDesc_pairwise :
    ∀ (l : List (List Char × Nat)), (sortDesc l).Pairwise (fun x y => y.2 ≤ x.2)
  | [] => List.Pairwise.nil
  | a :: t => insDesc_pairwise a (sortDesc t) (sortDesc_pairwise t)

/-- Stability of insertion, per count value: the new element lands before all
equal-count elements and the rest keep their relative order. -/
theorem insDesc_filter (a : List Char × Nat) (c : Nat) :
    ∀ (l : List (List Char × Nat)),
      (insDesc a l).filter (fun x => x.2 == c) =
        if a.2 = c then a :: l.filter (fun x => x.2 == c)
        else l.filter (fun x => x.2 == c)
  | [] => by
    by_cases hac : a.2 = c <;> simp [insDesc, hac]
  | y :: ys => by
    unfold insDesc
    split
    case isTrue hlt =>
      rw [List.filter_cons, insDesc_filter a c ys]
      by_cases hac : a.2 = c
      · have hyc : (y.2 == c) = false := by
          simp only [beq_eq_false_iff_ne, ne_eq]
          omega
        rw [if_pos hac, if_pos hac, hyc, List.filter_cons, hyc]
        simp
      · rw [if_neg hac, if_neg hac, List.filter_cons]
    case isFalse hge =>
      rw [List.filter_cons, List.filter_cons]
      by_cases hac : a.2 = c
      · rw [if_pos hac]
        have : (a.2 == c) = true := by simp [hac]
        rw [this]
        simp
      · rw [if_neg hac]
        have : (a.2 == c) = false := by simp [hac]
        rw [this]
        simp

/-- Stability of the sort, per count value: filtering the sorted list to one
count value gives the same sequence as filtering the input. -/
theorem sortDesc_filter (c : Nat) :
    ∀ (l : List (List Char × Nat)),
      (sortDesc l).filter (fun x => x.2 == c) = l.filter (fun x => x.2 == c)
  | [] => rfl
  | a :: t => by
    show (insDesc a (sortDesc t)).filter _ = _
    rw [insDesc_filter a c (sortDesc t), sortDesc_filter c t, List.filter_cons]
    by_cases hac : a.2 = c
    · have : (a.2 == c) = true := by simp [hac]
      rw [if_pos hac, this]
      simp
    · have : (a.2 == c) = false := by simp [hac]
      rw [if_neg hac, this]
      simp

/-- The sort is a permutation as far as membership is concerned. -/
theorem mem_sortDesc (x : List Char × Nat) :
    ∀ (l : List (List Char × Nat)), (x ∈ sortDesc l ↔ x ∈ l)
  | [] => Iff.rfl
  | a :: t => by
    show x ∈ insDesc a (sortDesc t) ↔ _
    rw [mem_insDesc a x (sortDesc t), mem_sortDesc x t, List.mem_cons]

/-- Pairwise transfer through `filterMap`: an order on the inputs carries
over to the produced values. -/
theorem pairwise_filterMap_of {α β : Type} {f : α → Option β} {R : α → α → Prop}
    {P : β → β → Prop} :
    ∀ {l : List α}, l.Pairwise R →
      (∀ a ∈ l, ∀ b ∈ l, R a b → ∀ x, f a = some x → ∀ y, f b = some y → P x y) →
      (l.filterMap f).Pairwise P
  | [], _, _ => by simp
  | a :: t, hl, hf => by
    rcases List.pairwise_cons.mp hl with ⟨hab, ht⟩
    have htail : (t.filterMap f).Pairwise P :=
      pairwise_filterMap_of ht (fun b hb b' hb' r x hx y hy =>
        hf b (List.mem_cons_of_mem a hb) b' (List.mem_cons_of_mem a hb') r x hx y hy)
    cases hfa : f a with
    | none => rw [List.filterMap_cons_none hfa]; exact htail
    | some x =>
      rw [List.filterMap_cons_some hfa]
      refine List.pairwise_cons.mpr ⟨?_, htail⟩
      intro y hy
      rcases List.mem_filterMap.mp hy with ⟨b, hb, hfb⟩
      exact hf a (List.mem_cons_self a t) b (List.mem_cons_of_mem a hb) (hab b hb) x hfa y hfb

/-- Filtering after `filterMap` equals `filterMap` after filtering, along a
pointwise correspondence of the two predicates. -/
theorem filter_filterMap_comm {α β : Type} {f : α → Option β} {p : β → Bool} {q : α → Bool} :
    ∀ {l : List α}, (∀ a ∈ l, ∀ x, f a = some x → p x = q a) →
      (l.filterMap f).filter p = (l.filter q).filterMap f
  | [], _ => rfl
  | a :: t, h => by
    have htail := filter_filterMap_comm
      (fun b hb x hx => h b (List.mem_cons_of_mem a hb) x hx) (l := t)
    cases hfa : f a with
    | none =>
      rw [List.filterMap_cons_none hfa, List.filter_cons]
      by_cases hqa : q a = true
      · rw [if_pos hqa, List.filterMap_cons_none hfa]
        exact htail
      · rw [if_neg hqa]
        exact htail
    | some x =>
      have hpq : p x = q a := h a (List.mem_cons_self a t) x hfa
      rw [List.filterMap_cons_some hfa, List.filter_cons, List.filter_cons]
      by_cases hqa : q a = true
      · rw [if_pos hqa, if_pos (by rw [hpq]; exact hqa), List.filterMap_cons_some hfa, htail]
      · rw [if_neg hqa, if_neg (by rw [hpq]; exact hqa)]
        exact htail

/-- When every input maps to some value whose image under `g` agrees with
`h`, mapping after `filterMap` is just mapping. -/
theorem filterMap_map_eq_map {α β γ : Type} {f : α → Option β} {g : β → γ} {h : α → γ} :
    ∀ {l : List α}, (∀ a ∈ l, ∃ x, f a = some x ∧ g x = h a) →
      (l.filterMap f).map g = l.map h
  | [], _ => rfl
  | a :: t, hx => by
    rcases hx a (List.mem_cons_self a t) with ⟨x, hfa, hgx⟩
    rw [List.filterMap_cons_some hfa, List.map_cons, List.map_cons, hgx,
      filterMap_map_eq_map (fun b hb => hx b (List.mem_cons_of_mem a hb))]

/-- The keys of the kept pairs form a sublist of the keys of the inputs. -/
theorem filterMap_key_sublist {α β : Type} (f : α → Option β) (key : α → List Char)
    (kb : β → List Char) :
    ∀ (l : List α), (∀ a ∈ l, ∀ x, f a = some x → kb x = key a) →
      List.Sublist ((l.filterMap f).map kb) (l.map key)
  | [], _ => by simp
  | a :: t, h => by
    have htail := filterMap_key_sublist f key kb t
      (fun b hb x hx => h b (List.mem_cons_of_mem a hb) x hx)
    cases hfa : f a with
    | none =>
      rw [List.filterMap_cons_none hfa, List.map_cons]
      exact htail.cons (key a)
    | some x =>
      rw [List.filterMap_cons_some hfa, List.map_cons, List.map_cons,
        h a (List.mem_cons_self a t) x hfa]
      exact htail.cons₂ (key a)

/-- The match score `search` assigns to a returned record: the number of
query tokens occurring in the keyword string rebuilt from the record's
fields (the same four fields `_create_keywords` reads, all carried by the
record). -/
def scoreOf (q : List Char) (r : ResultRec) : Nat :=
  countMatches (splitWs (lowerL q))
    (lowerL (createKeywordsParts r.name r.entity_type r.summary r.file_path))

/-- C7: on a store with pairwise-distinct entity ids (the PRIMARY KEY
invariant of the entities table), search returns at most `limit` records,
ordered by match count in non-increasing order, and records with equal match
count keep the store's original insertion order: for every count value, the
ids of the returned records with that score form a sublist of the store's id
sequence. -/
theorem C7_ranking (store : List CodeEntity) (q : List Char) (limit : Nat)
    (ts : Option (List (List Char)))
    (hN : (store.map (fun e => e.entity_id)).Nodup) :
    (search store q limit ts).length ≤ limit ∧
    (search store q limit ts).Pairwise (fun a b => scoreOf q b ≤ scoreOf q a) ∧
    ∀ c, List.Sublist
      (((search store q limit ts).filter (fun r => scoreOf q r == c)).map
        (fun r => r.entity_id))
      (store.map (fun e => e.entity_id)) := by
  have key : ∀ p ∈ sortDesc (matchingIds store (splitWs (lowerL q))),
      ∃ e, e ∈ store ∧ p.1 = e.entity_id ∧
        p.2 = countMatches (splitWs (lowerL q)) (lowerL (createKeywords e)) ∧
        fetchRec store p.1 = some (toResultRec e) := by
    intro p hp
    exact mem_matchingIds store _ hN p
      ((mem_sortDesc p (matchingIds store (splitWs (lowerL q)))).mp hp)
  refine ⟨?_, ?_, ?_⟩
  · unfold search searchFrom
    exact le_trans (List.length_filterMap_le _ _) (List.length_take_le _ _)
  · unfold search searchFrom
    refine pairwise_filterMap_of (R := fun x y : List Char × Nat => y.2 ≤ x.2)
      ((sortDesc_pairwise _).sublist (List.take_sublist _ _)) ?_
    intro p1 hp1 p2 hp2 hle x hx y hy
    rcases key p1 (List.mem_of_mem_take hp1) with ⟨e1, _, _, hc1, hf1⟩
    rcases key p2 (List.mem_of_mem_take hp2) with ⟨e2, _, _, hc2, hf2⟩
    rw [hf1] at hx
    rw [hf2] at hy
    have hx1 : x = toResultRec e1 := (Option.some.inj hx).symm
    have hy2 : y = toResultRec e2 := (Option.some.inj hy).symm
    subst hx1
    subst hy2
    have hsx : scoreOf q (toResultRec e1) = p1.2 := hc1.symm
    have hsy : scoreOf q (toResultRec e2) = p2.2 := hc2.symm
    rw [hsx, hsy]
    exact hle
  · intro c
    unfold search searchFrom
    rw [filter_filterMap_comm (q := fun p : List Char × Nat => p.2 == c)
      (fun p hp x hx => by
        rcases key p (List.mem_of_mem_take hp) with ⟨e, _, _, hc, hf⟩
        rw [hf] at hx
        have hxe : x = toResultRec e := (Option.some.inj hx).symm
        subst hxe
        have hs : scoreOf q (toResultRec e) = p.2 := hc.symm
        rw [hs])]
    rw [filterMap_map_eq_map (h := fun p : List Char × Nat => p.1)
      (fun p hp => by
        have hpS := List.mem_of_mem_take (List.mem_of_mem_filter hp)
        rcases key p hpS with ⟨e, _, hid, _, hf⟩
        exact ⟨toResultRec e, hf, hid.symm⟩)]
    have h123 : List.Sublist
        ((((sortDesc (matchingIds store (splitWs (lowerL q)))).take limit).filter
          (fun p => p.2 == c)))
        ((matchingIds store (splitWs (lowerL q))).filter (fun p => p.2 == c)) := by
      have hst := List.Sublist.filter (fun p : List Char × Nat => p.2 == c)
        (List.take_sublist limit (sortDesc (matchingIds store (splitWs (lowerL q)))))
      rwa [sortDesc_filter c] at hst
    have h4 := List.Sublist.trans h123 (List.filter_sublist _)
    have h5 : List.Sublist
        ((matchingIds store (splitWs (lowerL q))).map (fun p => p.1))
        (store.map (fun e => e.entity_id)) := by
      rw [matchingIds_eq store _ hN]
      refine filterMap_key_sublist _ (fun e => e.entity_id)
        (fun p : List Char × Nat => p.1) store ?_
      intro e _ x hx
      by_cases h0 : 0 < countMatches (splitWs (lowerL q)) (lowerL (createKeywords e))
      · rw [if_pos h0] at hx
        rw [← Option.some.inj hx]
      · rw [if_neg h0] at hx
        exact absurd hx (by simp)
    exact List.Sublist.trans (List.Sublist.map _ h4) h5

/-- C7 witness: a two-entity store queried with two tokens; one entity scores
2, the other scores 1, and all three conclusions are discharged through the
theorem (the sublist conclusion at count 1). -/
theorem C7_ranking_witness :
    (search [entA, adderStruct] ("add adder".data) 10 none).length ≤ 10 ∧
    (search [entA, adderStruct] ("add adder".data) 10 none).Pairwise
      (fun a b => scoreOf ("add adder".data) b ≤ scoreOf ("add adder".data) a) ∧
    List.Sublist
      (((search [entA, adderStruct] ("add adder".data) 10 none).filter
        (fun r => scoreOf ("add adder".data) r == 1)).map (fun r => r.entity_id))
      ([entA, adderStruct].map (fun e => e.entity_id)) := by
  have h := C7_ranking [entA, adderStruct] ("add adder".data) 10 none (by decide)
  exact ⟨h.1, h.2.1, h.2.2 1⟩
